import Mathlib

/-!
Verification of the spreadsheet parser `docs/archive/scripts/parse-excel.py`.

The script is a one-shot ETL pass: it loads a multi-sheet spreadsheet into one
combined table, extracts a department / sub-division / major-category
hierarchy, builds a deduplicated attribute catalog with allowed values and
aliases, and emits category-to-attribute applicability edges.

This file gives a shallow embedding of the script's pure transformations and
proves (or refutes) the stated properties about them.

Modelling conventions:
* a missing cell (pandas `NaN` / `None`) is `Option.none`; a present cell is
  `some s` with `s` the cell rendered as a string;
* a combined-table row is a function from column name to `Option String`;
* Python's `str.strip` is modelled with `Char.isWhitespace` (space, tab, CR,
  LF), `str.upper` with `Char.toUpper` (ASCII uppercasing, which agrees with
  Python on the ASCII data the script manipulates);
* `str.replace` is only ever called with single-character arguments in the
  script, so it is modelled as a character map;
* Python `set` accumulators are modelled as insertion-ordered duplicate-free
  lists: the claims under study only inspect membership, never the (in Python
  unspecified) iteration order of a set.
-/

namespace ParseExcel

/-! ### Python string primitives -/

/-- Helper for `pyIn`: does `hay` start with `needle`? (Python `str.startswith`.) -/
def startsWithL : List Char → List Char → Bool
  | _, [] => true
  | [], _ :: _ => false
  | a :: as, b :: bs => a == b && startsWithL as bs

/-- Helper for `pyIn`: does `needle` occur contiguously inside `hay`? -/
def containsL (hay needle : List Char) : Bool :=
  match hay with
  | [] => needle.isEmpty
  | _ :: rest => startsWithL hay needle || containsL rest needle

/-- Python's substring test `needle in hay`. -/
def pyIn (needle hay : String) : Bool := containsL hay.data needle.data

/-- Python's `str.strip()` on the character list: drop whitespace from both ends. -/
def pyStripL (l : List Char) : List Char :=
  ((l.dropWhile Char.isWhitespace).reverse.dropWhile Char.isWhitespace).reverse

/-- Python's `str.strip()`. -/
def pyStrip (s : String) : String := ⟨pyStripL s.data⟩

/-- Single-character substitution, the effect of Python's `str.replace(a, b)`
for one-character `a` and `b` (the only way the script calls `replace`). -/
def charRepl (a b c : Char) : Char := if c = a then b else c

/-- Python's `str.replace(a, b)` for single characters `a`, `b`. -/
def pyReplaceChar (a b : Char) (s : String) : String := ⟨s.data.map (charRepl a b)⟩

/-- Python's `str.upper()` (ASCII model, see header). -/
def pyUpper (s : String) : String := ⟨s.data.map Char.toUpper⟩

/-- Python truthiness of an optional string: `None`/NaN and the empty string
are falsy. Models guards of the form `if x and not pd.isna(x)`. -/
def pyTruthy : Option String → Bool
  | none => false
  | some s => s != ""

/-- Python's `str(x)` on an optional string (`str(None)` is the text `"None"`). -/
def pyStrOpt : Option String → String
  | some s => s
  | none => "None"

/-- First-occurrence deduplication, the behaviour of pandas
`drop_duplicates()` / `Series.unique()` (NaN compares equal to NaN there,
which matches equality on `Option`). -/
def uniqueFirstAux [DecidableEq α] (seen : List α) : List α → List α
  | [] => []
  | a :: l => if a ∈ seen then uniqueFirstAux seen l else a :: uniqueFirstAux (a :: seen) l

/-- First-occurrence deduplication of a list. -/
def uniqueFirst [DecidableEq α] (l : List α) : List α := uniqueFirstAux [] l

/-! ### normalize_key (script lines 50-54) -/

/-- Embeds `normalize_key`: `None` for a missing or empty name, otherwise
strip, replace `-`, ` `, `/` by `_`, and uppercase.  The script returns
`None` when `not name or pd.isna(name)`; on a (non-NaN) string argument that
is exactly the test `name = ""`. -/
def normalize_key (name : String) : Option String :=
  if name = "" then none
  else some (pyUpper (pyReplaceChar '/' '_' (pyReplaceChar ' ' '_'
    (pyReplaceChar '-' '_' (pyStrip name)))))

/-! ### Attribute classifiers (script lines 56-115) -/

/-- Keyword table of `categorize_attribute` (fabric). -/
def fabric_keywords : List String :=
  ["YARN", "WEAVE", "COMPOSITION", "FINISH", "CONSTRUCTION", "GRAM", "COUNT", "LYCRA", "FABRIC"]

/-- Keyword table of `categorize_attribute` (design). -/
def design_keywords : List String :=
  ["NECK", "COLLAR", "SLEEVES", "CUFF", "FIT", "PATTERN", "STYLE", "SHAPE", "LENGTH",
   "PRINT", "EMBROIDERY", "WASH", "POCKET", "WAIST", "RISE", "LEG", "PLACKET"]

/-- Keyword table of `categorize_attribute` (technical). -/
def technical_keywords : List String := ["GSM", "OUNCE", "COUNT", "SHADE", "SIZE"]

/-- Embeds `categorize_attribute` (script lines 56-71). -/
def categorize_attribute (attr_name : String) : String :=
  let attr_upper := pyUpper attr_name
  if fabric_keywords.any (fun kw => pyIn kw attr_upper) then "fabric"
  else if design_keywords.any (fun kw => pyIn kw attr_upper) then "design"
  else if technical_keywords.any (fun kw => pyIn kw attr_upper) then "technical"
  else "other"

/-- Exact-match denylist of `is_ai_extractable` (script lines 76-80). -/
def non_extractable : List String :=
  ["YARN_01", "YARN_02", "WEAVE", "WEAVE_2", "COMPOSITION",
   "FINISH", "CONSTRUCTION", "GRAM_PER_SQUARE_METER", "OUNCE",
   "COUNT", "SHADE", "FABRIC_MAIN_MVGR"]

/-- Embeds `is_ai_extractable` (script lines 73-81). -/
def is_ai_extractable (key : String) : Bool := !(non_extractable.contains key)

/-- Keyword table of `is_visible` (script lines 85-89). -/
def visible_keywords : List String :=
  ["NECK", "COLLAR", "SLEEVES", "FIT", "PATTERN", "COLOR",
   "STYLE", "SHAPE", "LENGTH", "PRINT", "EMBROIDERY", "WASH",
   "PLACKET", "POCKET", "WAIST", "RISE", "LEG", "CLOSURE"]

/-- Embeds `is_visible` (script lines 83-90). -/
def is_visible (key : String) : Bool := visible_keywords.any (fun kw => pyIn kw key)

/-- The `priorities` dict of `get_priority` (script lines 94-109), in its
Python 3.7+ insertion order, which is the loop's iteration order. -/
def priorities : List (String × Int) :=
  [("NECK", 95), ("COLLAR", 90), ("SLEEVES", 90), ("FIT", 85), ("PATTERN", 85),
   ("COLOR", 90), ("STYLE", 80), ("LENGTH", 75), ("PRINT", 70), ("EMBROIDERY", 65),
   ("PLACKET", 70), ("POCKET", 65), ("WAIST", 75), ("CLOSURE", 70)]

/-- Embeds `get_priority` (script lines 92-115): first entry of `priorities`
whose keyword occurs in `key` wins; default 50. -/
def get_priority (key : String) : Int :=
  match priorities.find? (fun p => pyIn p.1 key) with
  | some p => p.2
  | none => 50

/-! ### generate_aliases (script lines 117-133) -/

/-- Set insertion (`set.add`) modelled on an insertion-ordered duplicate-free list. -/
def addUnique (l : List String) (s : String) : List String :=
  if s ∈ l then l else l ++ [s]

/-- Embeds `generate_aliases` (script lines 117-133).  The short form
contributes its stripped form and its underscore/hyphen-to-space variants;
the full form contributes the same three variants only when it is truthy and
its `str()` differs from the short form's; empty strings are filtered out. -/
def generate_aliases (short_form full_form : Option String) : List String :=
  let a1 := if pyTruthy short_form then
      let s := pyStrOpt short_form
      addUnique (addUnique (addUnique [] (pyStrip s))
        (pyReplaceChar '_' ' ' s)) (pyReplaceChar '-' ' ' s)
    else []
  let a2 := if pyTruthy full_form && (pyStrOpt full_form != pyStrOpt short_form) then
      let f := pyStrOpt full_form
      addUnique (addUnique (addUnique a1 (pyStrip f))
        (pyReplaceChar '_' ' ' f)) (pyReplaceChar '-' ' ' f)
    else a1
  a2.filter (fun s => s != "")

/-! ### Major-category extraction (script lines 193-228) -/

/-- One row of the projection
`combined_df[['SUB-DIVISION', 'MAJOR CATEGORY', 'MAJOR CATEGORY FULL FORM',
'MERCHENDISE CATEGORY CODE', 'MERCHENDISE CATEGORY DESCRIPTION',
'FABRIC_SHEET']]`.  `sheet` is the synthetic `FABRIC_SHEET` tag, always
present. -/
structure CatRow where
  subdiv : Option String
  major : Option String
  fullForm : Option String
  merchCode : Option String
  merchDesc : Option String
  sheet : String
deriving DecidableEq, Repr

/-- One emitted major-category record (script lines 219-227). -/
structure MajorCategory where
  sub_division_code : String
  code : String
  name : String
  full_form : Option String
  merchandise_code : Option String
  merchandise_desc : Option String
  fabric_sheet : String
deriving DecidableEq, Repr

/-- Embeds the per-row body of the major-category loop (script lines 205-227):
`seen` holds the already-emitted codes (`seen_codes`); a collision of the
original code is answered by appending `_{fabric_sheet}`, and the (possibly
suffixed) code is added to `seen` without any further freshness check. -/
def emitCats : List CatRow → List String → List MajorCategory
  | [], _ => []
  | r :: rs, seen =>
    let original := pyStrip (r.major.getD "")
    let fabric_sheet := pyStrip r.sheet
    let code := if original ∈ seen then original ++ "_" ++ fabric_sheet else original
    { sub_division_code := match r.subdiv with | some v => pyStrip v | none => "nan"
      code := code
      name := original
      full_form := r.fullForm.map pyStrip
      merchandise_code := r.merchCode.map pyStrip
      merchandise_desc := r.merchDesc.map pyStrip
      fabric_sheet := fabric_sheet } :: emitCats rs (code :: seen)

/-- Embeds the whole major-category stage (script lines 194-228):
`drop_duplicates()` on the full projected tuple, then
`dropna(subset=['MAJOR CATEGORY'])`, then the emission loop with the
`seen_codes` accumulator. -/
def major_categories (rows : List CatRow) : List MajorCategory :=
  emitCats ((uniqueFirst rows).filter (fun r => r.major.isSome)) []

/-! ### Attribute extraction (script lines 230-308) -/

/-- A combined-table row for the attribute and mapping stages: a map from
column name to optional cell value. -/
def Row : Type := String → Option String

/-- One allowed value of an attribute (script lines 269-273 / 283-287). -/
structure AttributeValue where
  short_form : String
  full_form : String
  aliases : List String
deriving DecidableEq, Repr

/-- One emitted attribute record (script lines 295-304). -/
structure Attribute where
  key : String
  label : String
  full_form : String
  category : String
  ai_extractable : Bool
  visible_from_distance : Bool
  extraction_priority : Int
  allowed_values : List AttributeValue
deriving DecidableEq, Repr

/-- Keeps a projected pair only when both cells are present (`dropna()` on the
two-column projection). -/
def pairOpt : Option String × Option String → Option (String × String)
  | (some a, some b) => some (a, b)
  | _ => none

/-- Embeds the companion-column branch (script lines 259-273): values arrive
as `(short, full)` pairs, are stripped, and deduplicated by stripped short
form with the first occurrence winning. -/
def dedupByShort : List (String × String) → List String → List AttributeValue
  | [], _ => []
  | (s, f) :: rest, seen =>
    let short := pyStrip s
    if short ∈ seen then dedupByShort rest seen
    else { short_form := short
           full_form := pyStrip f
           aliases := generate_aliases (some short) (some (pyStrip f)) }
      :: dedupByShort rest (short :: seen)

/-- Embeds the no-companion branch (script lines 274-287): each distinct
non-missing value is stripped and used as both short and full form,
deduplicated by the stripped value, first occurrence winning. -/
def dedupVals : List String → List String → List AttributeValue
  | [], _ => []
  | v :: rest, seen =>
    let vs := pyStrip v
    if vs ∈ seen then dedupVals rest seen
    else { short_form := vs
           full_form := vs
           aliases := generate_aliases (some vs) (some vs) }
      :: dedupVals rest (vs :: seen)

/-- Embeds the body that builds one attribute record for column `col` with
normalized key `key` (script lines 248-304).  `columns` is the combined
table's column list, consulted for the companion `"<col> FULL NAME"` column. -/
def mkAttr (rows : List Row) (columns : List String) (col key : String) : Attribute :=
  let full_name_col := col ++ " FULL NAME"
  let allowed :=
    if full_name_col ∈ columns then
      dedupByShort
        ((uniqueFirst (rows.map (fun r => (r col, r full_name_col)))).filterMap pairOpt) []
    else
      dedupVals (uniqueFirst (rows.filterMap (fun r => r col))) []
  { key := key
    label := col
    full_form := col
    category := categorize_attribute key
    ai_extractable := is_ai_extractable key
    visible_from_distance := is_visible key
    extraction_priority := get_priority key
    allowed_values := allowed }

/-- Embeds the attribute loop (script lines 243-306): for each attribute
column in order, normalize the key; skip falsy keys and keys already in
`processed` (`processed_attrs`); otherwise emit the record and mark the key
processed.  Python's `if not key or key in processed_attrs` treats `None`
and the empty string alike, so the guard is stated on
`(normalize_key col).getD ""`, which is `""` exactly in those two cases. -/
def extractAttrs (rows : List Row) (columns : List String) :
    List String → List String → List Attribute
  | [], _ => []
  | col :: rest, processed =>
    let key := (normalize_key col).getD ""
    if key = "" ∨ key ∈ processed then extractAttrs rows columns rest processed
    else mkAttr rows columns col key :: extractAttrs rows columns rest (key :: processed)

/-- The attribute catalog of a run (script lines 230-308). -/
def attributes_output (rows : List Row) (columns attr_cols : List String) : List Attribute :=
  extractAttrs rows columns attr_cols []

/-- The hierarchy/metadata exclusion list `HIERARCHY_COLS` (script lines 26-48). -/
def HIERARCHY_COLS : List String :=
  ["GMT FAB DIV",
   "FINISHED GOOD SEGMENT",
   "FINISHED GOOD SEGMENT FULL NAME",
   "FINISHED GOODS DIVISION",
   "FINISHED GOODS DIVISION FULL NAME",
   "SUB-DIVISION",
   "SUB-DIVISION FULL NAME",
   "MAJOR CATEGORY",
   "MAJOR CATEGORY FULL FORM",
   "MERCHENDISE CATEGORY CODE",
   "MERCHENDISE CATEGORY DESCRIPTION",
   "MERCHENDISE CATEGORY DESCRIPTION FULL FORM",
   "SEASON",
   "SEASON FULL NAME",
   "FATHER DESIGN",
   "FATHER DESIGN FULL NAME",
   "CHILD DESIGN MICRO MVGR",
   "CHILD DESIGN FULL NAME",
   "FABRIC DIVISION",
   "FABRIC DIVISION FULL NAME",
   "FABRIC_SHEET"]

/-- Embeds the attribute-column selection (script lines 236-239): drop
hierarchy/metadata columns and `Unnamed` placeholder columns, then drop
companion columns containing `"FULL NAME"`. -/
def attr_columns (columns : List String) : List String :=
  (columns.filter (fun col =>
      !(HIERARCHY_COLS.contains col) && !(startsWithL col.data "Unnamed".data))).filter
    (fun col => !(pyIn "FULL NAME" col))

/-! ### Category-attribute mappings (script lines 310-329) -/

/-- One applicability edge (script lines 326-329). -/
structure CategoryMapping where
  major_category : String
  «attribute» : String
deriving DecidableEq, Repr

/-- The column holding the raw major-category value. -/
def MAJOR_CATEGORY : String := "MAJOR CATEGORY"

/-- Embeds the mapping builder (script lines 312-329): for each distinct
category value (in first-appearance order, NaN skipped), for each attribute
column with at least one non-missing cell among that category's rows, emit
one edge carrying the stripped category value and the normalized column key
(skipped when the key is falsy). -/
def category_mappings (rows : List Row) (attr_cols : List String) : List CategoryMapping :=
  ((uniqueFirst (rows.map (fun r => r MAJOR_CATEGORY))).filterMap id).flatMap (fun cv =>
    let catRows := rows.filter (fun r => r MAJOR_CATEGORY == some cv)
    attr_cols.filterMap (fun col =>
      if catRows.any (fun r => (r col).isSome) then
        let k := (normalize_key col).getD ""
        if k = "" then none else some ⟨pyStrip cv, k⟩
      else none))

/-! ### Helper lemmas -/

theorem mem_uniqueFirstAux [DecidableEq α] (a : α) :
    ∀ (l : List α) (seen : List α), a ∈ uniqueFirstAux seen l ↔ (a ∈ l ∧ a ∉ seen) := by
  intro l
  induction l with
  | nil => intro seen; simp [uniqueFirstAux]
  | cons b t ih =>
    intro seen
    by_cases hb : b ∈ seen
    · simp only [uniqueFirstAux, if_pos hb, ih, List.mem_cons]
      constructor
      · rintro ⟨hm, hn⟩; exact ⟨Or.inr hm, hn⟩
      · rintro ⟨hm | hm, hn⟩
        · exact absurd (hm ▸ hb) hn
        · exact ⟨hm, hn⟩
    · simp only [uniqueFirstAux, if_neg hb, List.mem_cons, ih]
      constructor
      · rintro (rfl | ⟨hm, hn⟩)
        · exact ⟨Or.inl rfl, hb⟩
        · exact ⟨Or.inr hm, fun hc => hn (Or.inr hc)⟩
      · rintro ⟨rfl | hm, hn⟩
        · exact Or.inl rfl
        · by_cases hab : a = b
          · exact Or.inl hab
          · exact Or.inr ⟨hm, by simp [hab, hn]⟩

theorem mem_uniqueFirst [DecidableEq α] (a : α) (l : List α) :
    a ∈ uniqueFirst l ↔ a ∈ l := by
  simp [uniqueFirst, mem_uniqueFirstAux]

theorem mem_addUnique (x y : String) (l : List String) :
    x ∈ addUnique l y ↔ (x ∈ l ∨ x = y) := by
  unfold addUnique
  by_cases hy : y ∈ l
  · rw [if_pos hy]
    constructor
    · exact Or.inl
    · rintro (hm | rfl) <;> assumption
  · rw [if_neg hy]
    simp

/-- The result of the priority loop over an arbitrary table (the body of
`get_priority` abstracted over the `priorities` dict). -/
def tableLookup (tbl : List (String × Int)) (key : String) : Int :=
  match tbl.find? (fun p => pyIn p.1 key) with
  | some p => p.2
  | none => 50

theorem get_priority_eq_tableLookup (key : String) :
    get_priority key = tableLookup priorities key := rfl

theorem tableLookup_nil (key : String) : tableLookup [] key = 50 := rfl

theorem tableLookup_cons (kw : String) (v : Int) (rest : List (String × Int)) (key : String) :
    tableLookup ((kw, v) :: rest) key = if pyIn kw key then v else tableLookup rest key := by
  unfold tableLookup
  by_cases h : pyIn kw key
  · rw [List.find?_cons_of_pos _ (by simpa using h), if_pos h]
  · rw [List.find?_cons_of_neg _ (by simpa using h), if_neg h]

/-! #### Character-level lemmas for idempotence of `normalize_key` -/

theorem toUpper_range (c : Char) :
    Char.toUpper c = c ∨ (65 ≤ (Char.toUpper c).toNat ∧ (Char.toUpper c).toNat ≤ 90) := by
  unfold Char.toUpper
  by_cases h : 97 ≤ c.toNat ∧ c.toNat ≤ 122
  · right
    simp only [ge_iff_le, if_pos h]
    have hv : (c.toNat - 32).isValidChar := Or.inl (by omega)
    have he : (Char.ofNat (c.toNat - 32)).toNat = c.toNat - 32 := by
      simp only [Char.ofNat, dif_pos hv]; rfl
    omega
  · left
    simp only [ge_iff_le, if_neg h]

theorem toUpper_eq_self (c : Char) (h : ¬ (97 ≤ c.toNat ∧ c.toNat ≤ 122)) :
    Char.toUpper c = c := by
  unfold Char.toUpper
  simp only [ge_iff_le, if_neg h]

theorem toUpper_toUpper (c : Char) :
    Char.toUpper (Char.toUpper c) = Char.toUpper c := by
  rcases toUpper_range c with h | h
  · rw [h, h]
  · exact toUpper_eq_self _ (by omega)

theorem ne_of_toNat_lt {d e : Char} (h65 : 65 ≤ d.toNat) (he : e.toNat < 65) : d ≠ e := by
  intro hde
  subst hde
  omega

theorem char_range_facts (d : Char) (h65 : 65 ≤ d.toNat) (_h90 : d.toNat ≤ 90) :
    d.isWhitespace = false ∧ d ≠ '-' ∧ d ≠ ' ' ∧ d ≠ '/' := by
  refine ⟨?_, ?_, ?_, ?_⟩
  · simp only [Char.isWhitespace, Bool.or_eq_false_iff, decide_eq_false_iff_not]
    exact ⟨⟨⟨ne_of_toNat_lt h65 (by decide), ne_of_toNat_lt h65 (by decide)⟩,
      ne_of_toNat_lt h65 (by decide)⟩, ne_of_toNat_lt h65 (by decide)⟩
  · exact ne_of_toNat_lt h65 (by decide)
  · exact ne_of_toNat_lt h65 (by decide)
  · exact ne_of_toNat_lt h65 (by decide)

/-- The per-character action of the normalization pipeline: dash, space and
slash to underscore, then uppercase (the fused form of the four maps in
`normalize_key`). -/
def normCh (c : Char) : Char :=
  Char.toUpper (charRepl '/' '_' (charRepl ' ' '_' (charRepl '-' '_' c)))

theorem normCh_of_not_special (c : Char) (h1 : c ≠ '-') (h2 : c ≠ ' ') (h3 : c ≠ '/') :
    normCh c = Char.toUpper c := by
  unfold normCh charRepl
  rw [if_neg h1, if_neg h2, if_neg h3]

theorem normCh_normCh (c : Char) : normCh (normCh c) = normCh c := by
  by_cases h1 : c = '-'
  · subst h1; decide
  by_cases h2 : c = ' '
  · subst h2; decide
  by_cases h3 : c = '/'
  · subst h3; decide
  rw [normCh_of_not_special c h1 h2 h3]
  rcases toUpper_range c with h | h
  · rw [h]
    rw [normCh_of_not_special c h1 h2 h3, h]
  · obtain ⟨-, g1, g2, g3⟩ := char_range_facts _ h.1 h.2
    rw [normCh_of_not_special _ g1 g2 g3, toUpper_toUpper]

theorem normCh_not_whitespace (c : Char) (h : c.isWhitespace = false) :
    (normCh c).isWhitespace = false := by
  by_cases h1 : c = '-'
  · subst h1; decide
  by_cases h2 : c = ' '
  · subst h2; decide
  by_cases h3 : c = '/'
  · subst h3; decide
  rw [normCh_of_not_special c h1 h2 h3]
  rcases toUpper_range c with hu | hu
  · rw [hu]; exact h
  · exact (char_range_facts _ hu.1 hu.2).1

/-! #### Strip-boundary lemmas -/

theorem dropWhile_head_false {p : α → Bool} :
    ∀ {l : List α} {c : α}, (l.dropWhile p).head? = some c → p c = false := by
  intro l
  induction l with
  | nil => intro c h; simp [List.dropWhile] at h
  | cons a t ih =>
    intro c h
    rw [List.dropWhile_cons] at h
    by_cases ha : p a
    · rw [if_pos ha] at h
      exact ih h
    · rw [if_neg ha] at h
      simp only [List.head?_cons, Option.some.injEq] at h
      subst h
      simpa using ha

theorem dropWhile_eq_self_of_head {p : α → Bool} {l : List α}
    (h : ∀ c, l.head? = some c → p c = false) : l.dropWhile p = l := by
  cases l with
  | nil => rfl
  | cons a t =>
    rw [List.dropWhile_cons, if_neg]
    simp [h a rfl]

theorem pyStripL_head {l : List Char} {c : Char}
    (h : (pyStripL l).head? = some c) : c.isWhitespace = false := by
  unfold pyStripL at h
  rw [List.head?_reverse] at h
  set a := l.dropWhile Char.isWhitespace with ha
  set b := a.reverse.dropWhile Char.isWhitespace with hb
  obtain ⟨t, ht⟩ : b <:+ a.reverse := List.dropWhile_suffix _
  have hbne : b ≠ [] := by
    intro hc
    rw [hc] at h
    simp at h
  have : (t ++ b).getLast? = some c := by
    rw [List.getLast?_append, h]
    rfl
  rw [ht] at this
  rw [List.getLast?_reverse] at this
  exact dropWhile_head_false this

theorem pyStripL_last {l : List Char} {c : Char}
    (h : (pyStripL l).getLast? = some c) : c.isWhitespace = false := by
  unfold pyStripL at h
  rw [List.getLast?_reverse] at h
  exact dropWhile_head_false h

theorem pyStripL_eq_self {l : List Char}
    (hh : ∀ c, l.head? = some c → c.isWhitespace = false)
    (hl : ∀ c, l.getLast? = some c → c.isWhitespace = false) :
    pyStripL l = l := by
  unfold pyStripL
  rw [dropWhile_eq_self_of_head hh]
  rw [dropWhile_eq_self_of_head (fun c hc => hl c (by rwa [List.head?_reverse] at hc))]
  exact List.reverse_reverse l

theorem getLast?_map (f : α → β) (l : List α) : (l.map f).getLast? = l.getLast?.map f := by
  rw [← List.head?_reverse, ← List.map_reverse, List.head?_map, List.head?_reverse]

theorem data_mk (l : List Char) : (⟨l⟩ : String).data = l := rfl

theorem pipeline_data : ∀ l : List Char,
    (((l.map (charRepl '-' '_')).map (charRepl ' ' '_')).map (charRepl '/' '_')).map
        Char.toUpper = l.map normCh
  | [] => rfl
  | c :: t => by
    simp only [List.map_cons]
    rw [pipeline_data t]
    rfl

theorem normalize_key_eq (s : String) (hs : s ≠ "") :
    normalize_key s = some ⟨(pyStripL s.data).map normCh⟩ := by
  unfold normalize_key pyUpper pyReplaceChar pyStrip
  rw [if_neg hs]
  simp only [data_mk]
  rw [pipeline_data]

theorem map_normCh_normCh : ∀ x : List Char, (x.map normCh).map normCh = x.map normCh
  | [] => rfl
  | c :: t => by
    simp only [List.map_cons]
    rw [normCh_normCh, map_normCh_normCh t]

theorem normalize_key_idem (s : String) (h : pyStrip s ≠ "") :
    (normalize_key s).bind normalize_key = normalize_key s := by
  have hx : pyStripL s.data ≠ [] := by
    intro hc
    apply h
    unfold pyStrip
    rw [hc]
  have hs : s ≠ "" := by
    intro hc
    subst hc
    exact hx rfl
  have e1 := normalize_key_eq s hs
  set x := pyStripL s.data with hxdef
  set t : String := ⟨x.map normCh⟩ with htdef
  have htdata : t.data = x.map normCh := rfl
  have htne : t ≠ "" := by
    intro hc
    have hd : x.map normCh = [] := by simpa using congrArg String.data hc
    exact hx (List.map_eq_nil_iff.mp hd)
  have hstrip : pyStripL t.data = t.data := by
    apply pyStripL_eq_self
    · intro c hc
      rw [htdata, List.head?_map] at hc
      cases hxh : x.head? with
      | none => rw [hxh] at hc; simp at hc
      | some c0 =>
        rw [hxh] at hc
        simp only [Option.map_some'] at hc
        have hcc : normCh c0 = c := by injection hc
        rw [← hcc]
        exact normCh_not_whitespace c0 (pyStripL_head hxh)
    · intro c hc
      rw [htdata, getLast?_map] at hc
      cases hxl : x.getLast? with
      | none => rw [hxl] at hc; simp at hc
      | some c0 =>
        rw [hxl] at hc
        simp only [Option.map_some'] at hc
        have hcc : normCh c0 = c := by injection hc
        rw [← hcc]
        exact normCh_not_whitespace c0 (pyStripL_last hxl)
  rw [e1]
  show normalize_key t = some t
  rw [normalize_key_eq t htne, hstrip, htdata, map_normCh_normCh]

/-! ### Claim C5 -/

/-- C5, counterexample: the claim "for every non-empty header string `s`,
`normalize_key (normalize_key s) = normalize_key s`" fails at the non-empty,
all-whitespace string `" "`: the first application yields the empty string
(`" "` is truthy, so the early-out is not taken and stripping empties it),
and the second application maps the empty string to `None`. -/
theorem C5_counterexample :
    (normalize_key " ").bind normalize_key ≠ normalize_key " " := by decide

/-- C5, amended: `normalize_key` is idempotent on every header string that
contains at least one non-whitespace character (equivalently, whose stripped
form is non-empty); in particular
`normalize_key "SUB-DIVISION NAME" = "SUB_DIVISION_NAME"`. -/
theorem C5_normalize_key_idem (s : String) (h : pyStrip s ≠ "") :
    (normalize_key s).bind normalize_key = normalize_key s ∧
    normalize_key "SUB-DIVISION NAME" = some "SUB_DIVISION_NAME" :=
  ⟨normalize_key_idem s h, by decide⟩

/-- Witness for `C5_normalize_key_idem` at the spec's own example header. -/
theorem C5_witness :
    (normalize_key "SUB-DIVISION NAME").bind normalize_key
        = normalize_key "SUB-DIVISION NAME" ∧
    normalize_key "SUB-DIVISION NAME" = some "SUB_DIVISION_NAME" :=
  C5_normalize_key_idem "SUB-DIVISION NAME" (by decide)

/-! ### Claim C2 -/

/-- Modelled from the spec: the keyword→priority table in the order the spec
declares it (NECK=95, COLOR=90, COLLAR=90, SLEEVES=90, FIT=85, PATTERN=85,
STYLE=80, WAIST=75, LENGTH=75, PRINT=70, PLACKET=70, CLOSURE=70,
EMBROIDERY=65, POCKET=65), for comparison against the code's table. -/
def prioritiesSpecOrder : List (String × Int) :=
  [("NECK", 95), ("COLOR", 90), ("COLLAR", 90), ("SLEEVES", 90), ("FIT", 85),
   ("PATTERN", 85), ("STYLE", 80), ("WAIST", 75), ("LENGTH", 75), ("PRINT", 70),
   ("PLACKET", 70), ("CLOSURE", 70), ("EMBROIDERY", 65), ("POCKET", 65)]

/-- Modelled from the spec: first-match lookup over `prioritiesSpecOrder`,
default 50 — the function C2 claims `get_priority` to be. -/
def get_priority_spec_order (key : String) : Int := tableLookup prioritiesSpecOrder key

/-- C2, counterexample: on the key `"COLOR_FIT"` the code scans its dict in
insertion order and hits FIT (85) before COLOR, while the spec's declared
order hits COLOR (90) before FIT, so `get_priority` differs from the
spec-ordered lookup. -/
theorem C2_counterexample :
    get_priority "COLOR_FIT" = 85 ∧ get_priority_spec_order "COLOR_FIT" = 90 ∧
    get_priority "COLOR_FIT" ≠ get_priority_spec_order "COLOR_FIT" := by decide

/-- Modelled from the amended spec wording: the first matching keyword, in
the order the code's dict declares the entries, wins; default 50. -/
def get_priority_first_match (key : String) : Int :=
  if pyIn "NECK" key then 95
  else if pyIn "COLLAR" key then 90
  else if pyIn "SLEEVES" key then 90
  else if pyIn "FIT" key then 85
  else if pyIn "PATTERN" key then 85
  else if pyIn "COLOR" key then 90
  else if pyIn "STYLE" key then 80
  else if pyIn "LENGTH" key then 75
  else if pyIn "PRINT" key then 70
  else if pyIn "EMBROIDERY" key then 65
  else if pyIn "PLACKET" key then 70
  else if pyIn "POCKET" key then 65
  else if pyIn "WAIST" key then 75
  else if pyIn "CLOSURE" key then 70
  else 50

/-- C2, amended: for every key, `get_priority` returns the priority of the
first keyword contained in the key when scanning the table in the code's
declaration order (NECK=95, COLLAR=90, SLEEVES=90, FIT=85, PATTERN=85,
COLOR=90, STYLE=80, LENGTH=75, PRINT=70, EMBROIDERY=65, PLACKET=70,
POCKET=65, WAIST=75, CLOSURE=70), and 50 when no keyword is contained. -/
theorem C2_get_priority_first_match (key : String) :
    get_priority key = get_priority_first_match key := by
  rw [get_priority_eq_tableLookup]
  unfold priorities
  rw [tableLookup_cons, tableLookup_cons, tableLookup_cons, tableLookup_cons,
    tableLookup_cons, tableLookup_cons, tableLookup_cons, tableLookup_cons,
    tableLookup_cons, tableLookup_cons, tableLookup_cons, tableLookup_cons,
    tableLookup_cons, tableLookup_cons, tableLookup_nil]
  rfl

/-! ### Claim C7 -/

/-- C7: `get_priority` always returns a value in [1, 100], and any key
containing the substring `"NECK"` gets priority 95, whatever else it
contains, because NECK is the first table entry. -/
theorem C7_priority_range_and_neck (key : String) :
    (1 ≤ get_priority key ∧ get_priority key ≤ 100) ∧
    (pyIn "NECK" key = true → get_priority key = 95) := by
  constructor
  · unfold get_priority
    cases hf : priorities.find? (fun p => pyIn p.1 key) with
    | none => exact ⟨by norm_num, by norm_num⟩
    | some p =>
      have hp : p ∈ priorities := List.mem_of_find?_eq_some hf
      have hall : ∀ q ∈ priorities, 1 ≤ q.2 ∧ q.2 ≤ 100 := by decide
      exact hall p hp
  · intro h
    rw [get_priority_eq_tableLookup]
    unfold priorities
    rw [tableLookup_cons, if_pos h]

/-- Witness for `C7_priority_range_and_neck` at the key `"V_NECK"`. -/
theorem C7_witness :
    (1 ≤ get_priority "V_NECK" ∧ get_priority "V_NECK" ≤ 100) ∧
    get_priority "V_NECK" = 95 :=
  ⟨(C7_priority_range_and_neck "V_NECK").1,
   (C7_priority_range_and_neck "V_NECK").2 (by decide)⟩

/-! ### Claim C8 -/

theorem mem_generate_aliases_ne_empty (s f : Option String) (a : String)
    (h : a ∈ generate_aliases s f) : a ≠ "" := by
  simp only [generate_aliases] at h
  rw [List.mem_filter] at h
  simpa using h.2

/-- C8: `generate_aliases "V-NECK" "V Neck"` contains `"V-NECK"` and
`"V NECK"`; no produced alias list ever contains the empty string; and when
the full form equals the short form, every alias is one of the three
short-form variants (stripped short form, underscore-to-space variant,
hyphen-to-space variant). -/
theorem C8_generate_aliases :
    ("V-NECK" ∈ generate_aliases (some "V-NECK") (some "V Neck") ∧
     "V NECK" ∈ generate_aliases (some "V-NECK") (some "V Neck")) ∧
    (∀ s f : Option String, "" ∉ generate_aliases s f) ∧
    (∀ s : String, ∀ a ∈ generate_aliases (some s) (some s),
       a = pyStrip s ∨ a = pyReplaceChar '_' ' ' s ∨ a = pyReplaceChar '-' ' ' s) := by
  refine ⟨by decide, ?_, ?_⟩
  · intro s f hm
    exact mem_generate_aliases_ne_empty s f "" hm rfl
  · intro s a h
    simp only [generate_aliases, pyTruthy, pyStrOpt, bne_self_eq_false, Bool.and_false,
      Bool.false_eq_true, if_false] at h
    rw [List.mem_filter] at h
    have ha := h.1
    by_cases hs : (s != "") = true
    · rw [if_pos hs] at ha
      simp only [mem_addUnique, List.not_mem_nil, false_or] at ha
      tauto
    · rw [if_neg hs] at ha
      exact absurd ha (List.not_mem_nil a)

/-- Witness for `C8_generate_aliases`: the hyphen-to-space variant is
produced for `"V-NECK"`, and for the equal-forms call on `"A_B"` the alias
`"A B"` is one of the three short-form variants. -/
theorem C8_witness :
    "V NECK" ∈ generate_aliases (some "V-NECK") (some "V Neck") ∧
    ("A B" = pyStrip "A_B" ∨ "A B" = pyReplaceChar '_' ' ' "A_B" ∨
     "A B" = pyReplaceChar '-' ' ' "A_B") :=
  ⟨C8_generate_aliases.1.2, C8_generate_aliases.2.2 "A_B" "A B" (by decide)⟩

/-! ### Claim C1 -/

/-- A projected `cat_df` input on which the code's collision handling fails:
three surviving rows (distinct merchandise codes, so the full-tuple
`drop_duplicates` keeps all three) share the major category `"CAT"` and the
sheet `"S1"`. -/
def bugRows : List CatRow :=
  [⟨some "SD", some "CAT", none, some "M1", none, "S1"⟩,
   ⟨some "SD", some "CAT", none, some "M2", none, "S1"⟩,
   ⟨some "SD", some "CAT", none, some "M3", none, "S1"⟩]

/-- C1 (code bug): on `bugRows` the run emits the code list
`["CAT", "CAT_S1", "CAT_S1"]` — the third row's collision is answered with
the already-emitted suffixed code, because the code only checks the
original code against `seen_codes` and adds the suffixed code without a
freshness re-check.  So the emitted `code` values are not pairwise
distinct, contrary to the claim (and to the code's own
"Handle duplicate codes" comment). -/
theorem C1_code_bug_eval :
    (major_categories bugRows).map (fun m => m.code) = ["CAT", "CAT_S1", "CAT_S1"] ∧
    ¬ ((major_categories bugRows).map (fun m => m.code)).Pairwise (fun a b => a ≠ b) := by
  decide

/-! ### The attribute loop invariants (claims C3, C9, C10) -/

theorem extractAttrs_key_notin (rows : List Row) (columns : List String) :
    ∀ (cols processed : List String), ∀ a ∈ extractAttrs rows columns cols processed,
      a.key ∉ processed := by
  intro cols
  induction cols with
  | nil => intro processed a ha; simp [extractAttrs] at ha
  | cons col rest ih =>
    intro processed a ha
    simp only [extractAttrs] at ha
    by_cases hc : (normalize_key col).getD "" = "" ∨ (normalize_key col).getD "" ∈ processed
    · rw [if_pos hc] at ha
      exact ih processed a ha
    · rw [if_neg hc] at ha
      rcases List.mem_cons.mp ha with rfl | hmem
      · intro hp
        exact hc (Or.inr hp)
      · have hni := ih ((normalize_key col).getD "" :: processed) a hmem
        intro hp
        exact hni (List.mem_cons_of_mem _ hp)

theorem extractAttrs_pairwise (rows : List Row) (columns : List String) :
    ∀ (cols processed : List String),
      (extractAttrs rows columns cols processed).Pairwise (fun a b => a.key ≠ b.key) := by
  intro cols
  induction cols with
  | nil => intro processed; simp [extractAttrs]
  | cons col rest ih =>
    intro processed
    simp only [extractAttrs]
    by_cases hc : (normalize_key col).getD "" = "" ∨ (normalize_key col).getD "" ∈ processed
    · rw [if_pos hc]
      exact ih processed
    · rw [if_neg hc]
      rw [List.pairwise_cons]
      refine ⟨?_, ih ((normalize_key col).getD "" :: processed)⟩
      intro b hb he
      have hnb := extractAttrs_key_notin rows columns rest
        ((normalize_key col).getD "" :: processed) b hb
      apply hnb
      rw [← he]
      exact List.mem_cons_self _ _

theorem extractAttrs_covers (rows : List Row) (columns : List String) :
    ∀ (cols processed : List String) (col k : String),
      col ∈ cols → normalize_key col = some k → k ≠ "" →
      k ∈ processed ∨ ∃ a ∈ extractAttrs rows columns cols processed, a.key = k := by
  intro cols
  induction cols with
  | nil => intro processed col k hc; simp at hc
  | cons col0 rest ih =>
    intro processed col k hcol hk hke
    rcases List.mem_cons.mp hcol with rfl | hmem
    · have hgd : (normalize_key col).getD "" = k := by rw [hk]; rfl
      by_cases hc : k = "" ∨ k ∈ processed
      · rcases hc with hc | hc
        · exact absurd hc hke
        · exact Or.inl hc
      · right
        simp only [extractAttrs, hgd]
        rw [if_neg hc]
        exact ⟨mkAttr rows columns col k, List.mem_cons_self _ _, rfl⟩
    · simp only [extractAttrs]
      by_cases hc0 : (normalize_key col0).getD "" = "" ∨ (normalize_key col0).getD "" ∈ processed
      · rw [if_pos hc0]
        exact ih processed col k hmem hk hke
      · rw [if_neg hc0]
        rcases ih ((normalize_key col0).getD "" :: processed) col k hmem hk hke
          with hin | ⟨a, ha, hak⟩
        · rcases List.mem_cons.mp hin with heq | hin2
          · right
            exact ⟨mkAttr rows columns col0 ((normalize_key col0).getD ""),
              List.mem_cons_self _ _, heq.symm⟩
          · exact Or.inl hin2
        · exact Or.inr ⟨a, List.mem_cons_of_mem _ ha, hak⟩

/-- C3: the attribute keys of a run are pairwise distinct — a later column
whose normalized key was already processed is skipped — and every column
with a truthy normalized key is still represented by exactly the first such
column's record (so skipping loses no key). -/
theorem C3_attribute_keys_distinct (rows : List Row) (columns attr_cols : List String) :
    (attributes_output rows columns attr_cols).Pairwise (fun a b => a.key ≠ b.key) ∧
    (∀ col k, col ∈ attr_cols → normalize_key col = some k → k ≠ "" →
      ∃ a ∈ attributes_output rows columns attr_cols, a.key = k) := by
  refine ⟨extractAttrs_pairwise rows columns attr_cols [], ?_⟩
  intro col k hc hk hke
  rcases extractAttrs_covers rows columns attr_cols [] col k hc hk hke with h | h
  · simp at h
  · exact h

/-- Witness for `C3_attribute_keys_distinct` on a one-column run. -/
theorem C3_witness :
    (attributes_output [] [] ["NECK TYPE"]).Pairwise (fun a b => a.key ≠ b.key) ∧
    ∃ a ∈ attributes_output [] [] ["NECK TYPE"], a.key = "NECK_TYPE" :=
  ⟨(C3_attribute_keys_distinct [] [] ["NECK TYPE"]).1,
   (C3_attribute_keys_distinct [] [] ["NECK TYPE"]).2 "NECK TYPE" "NECK_TYPE"
     (by decide) (by decide) (by decide)⟩

theorem extractAttrs_label (rows : List Row) (columns : List String) :
    ∀ (cols processed : List String), ∀ a ∈ extractAttrs rows columns cols processed,
      a.label = a.full_form ∧ ∃ col ∈ cols, a.label = col ∧ a.full_form = col := by
  intro cols
  induction cols with
  | nil => intro processed a ha; simp [extractAttrs] at ha
  | cons col rest ih =>
    intro processed a ha
    simp only [extractAttrs] at ha
    by_cases hc : (normalize_key col).getD "" = "" ∨ (normalize_key col).getD "" ∈ processed
    · rw [if_pos hc] at ha
      obtain ⟨h1, col1, hmem, h2⟩ := ih processed a ha
      exact ⟨h1, col1, List.mem_cons_of_mem _ hmem, h2⟩
    · rw [if_neg hc] at ha
      rcases List.mem_cons.mp ha with rfl | hmem
      · exact ⟨rfl, col, List.mem_cons_self _ _, rfl, rfl⟩
      · obtain ⟨h1, col1, hmem1, h2⟩ := ih ((normalize_key col).getD "" :: processed) a hmem
        exact ⟨h1, col1, List.mem_cons_of_mem _ hmem1, h2⟩

/-- C10: every attribute's `label` and `full_form` both hold the raw column
header it was derived from, so `label = full_form` throughout the catalog. -/
theorem C10_label_eq_full_form (rows : List Row) (columns attr_cols : List String) :
    ∀ a ∈ attributes_output rows columns attr_cols,
      a.label = a.full_form ∧ ∃ col ∈ attr_cols, a.label = col ∧ a.full_form = col :=
  extractAttrs_label rows columns attr_cols []

/-- Witness for `C10_label_eq_full_form` on a one-column run. -/
theorem C10_witness :
    (mkAttr [] [] "NECK TYPE" "NECK_TYPE").label
        = (mkAttr [] [] "NECK TYPE" "NECK_TYPE").full_form ∧
    ∃ col ∈ ["NECK TYPE"], (mkAttr [] [] "NECK TYPE" "NECK_TYPE").label = col ∧
      (mkAttr [] [] "NECK TYPE" "NECK_TYPE").full_form = col :=
  C10_label_eq_full_form [] [] ["NECK TYPE"] (mkAttr [] [] "NECK TYPE" "NECK_TYPE") (by decide)

/-- C9: referential integrity — every emitted mapping edge's `attribute`
field is the `key` of some record in the attribute catalog built from the
same attribute-column list. -/
theorem C9_mapping_refs_attribute (rows : List Row) (columns attr_cols : List String)
    (m : CategoryMapping) (hm : m ∈ category_mappings rows attr_cols) :
    ∃ a ∈ attributes_output rows columns attr_cols, a.key = m.«attribute» := by
  simp only [category_mappings] at hm
  rw [List.mem_flatMap] at hm
  obtain ⟨cv, _hcv, hmc⟩ := hm
  rw [List.mem_filterMap] at hmc
  obtain ⟨col, hcol, hsome⟩ := hmc
  by_cases hany :
      ((rows.filter (fun r => r MAJOR_CATEGORY == some cv)).any (fun r => (r col).isSome)) = true
  · rw [if_pos hany] at hsome
    cases hnk : normalize_key col with
    | none =>
      rw [hnk] at hsome
      simp at hsome
    | some k =>
      rw [hnk] at hsome
      simp only [Option.getD_some] at hsome
      by_cases hke : k = ""
      · rw [if_pos hke] at hsome
        simp at hsome
      · rw [if_neg hke] at hsome
        have hmeq : (⟨pyStrip cv, k⟩ : CategoryMapping) = m := by
          injection hsome
        rcases extractAttrs_covers rows columns attr_cols [] col k hcol hnk hke
          with h | ⟨a, ha, hak⟩
        · simp at h
        · exact ⟨a, ha, by rw [hak, ← hmeq]⟩
  · rw [if_neg hany] at hsome
    simp at hsome

/-- A one-row table used to witness the mapping/catalog claims. -/
def wRow : Row := fun c =>
  if c = "MAJOR CATEGORY" then some "KNIT"
  else if c = "NECK TYPE" then some "Round"
  else none

/-- Witness for `C9_mapping_refs_attribute` on a one-row, one-column run. -/
theorem C9_witness :
    ∃ a ∈ attributes_output [wRow] ["MAJOR CATEGORY", "NECK TYPE"] ["NECK TYPE"],
      a.key = (CategoryMapping.mk "KNIT" "NECK_TYPE").«attribute» :=
  C9_mapping_refs_attribute [wRow] ["MAJOR CATEGORY", "NECK TYPE"] ["NECK TYPE"]
    (CategoryMapping.mk "KNIT" "NECK_TYPE") (by decide)

/-! ### Claim C4 -/

theorem dedupByShort_short_notin :
    ∀ (l : List (String × String)) (seen : List String),
      ∀ v ∈ dedupByShort l seen, v.short_form ∉ seen := by
  intro l
  induction l with
  | nil => intro seen v hv; simp [dedupByShort] at hv
  | cons p rest ih =>
    obtain ⟨s, f⟩ := p
    intro seen v hv
    simp only [dedupByShort] at hv
    by_cases hc : pyStrip s ∈ seen
    · rw [if_pos hc] at hv
      exact ih seen v hv
    · rw [if_neg hc] at hv
      rcases List.mem_cons.mp hv with rfl | hmem
      · exact hc
      · have hni := ih (pyStrip s :: seen) v hmem
        intro hp
        exact hni (List.mem_cons_of_mem _ hp)

theorem dedupByShort_pairwise :
    ∀ (l : List (String × String)) (seen : List String),
      (dedupByShort l seen).Pairwise (fun u v => u.short_form ≠ v.short_form) := by
  intro l
  induction l with
  | nil => intro seen; simp [dedupByShort]
  | cons p rest ih =>
    obtain ⟨s, f⟩ := p
    intro seen
    simp only [dedupByShort]
    by_cases hc : pyStrip s ∈ seen
    · rw [if_pos hc]
      exact ih seen
    · rw [if_neg hc]
      rw [List.pairwise_cons]
      refine ⟨?_, ih (pyStrip s :: seen)⟩
      intro b hb he
      have hnb := dedupByShort_short_notin rest (pyStrip s :: seen) b hb
      apply hnb
      rw [← he]
      exact List.mem_cons_self _ _

theorem dedupVals_short_notin :
    ∀ (l : List String) (seen : List String), ∀ v ∈ dedupVals l seen, v.short_form ∉ seen := by
  intro l
  induction l with
  | nil => intro seen v hv; simp [dedupVals] at hv
  | cons s rest ih =>
    intro seen v hv
    simp only [dedupVals] at hv
    by_cases hc : pyStrip s ∈ seen
    · rw [if_pos hc] at hv
      exact ih seen v hv
    · rw [if_neg hc] at hv
      rcases List.mem_cons.mp hv with rfl | hmem
      · exact hc
      · have hni := ih (pyStrip s :: seen) v hmem
        intro hp
        exact hni (List.mem_cons_of_mem _ hp)

theorem dedupVals_pairwise :
    ∀ (l : List String) (seen : List String),
      (dedupVals l seen).Pairwise (fun u v => u.short_form ≠ v.short_form) := by
  intro l
  induction l with
  | nil => intro seen; simp [dedupVals]
  | cons s rest ih =>
    intro seen
    simp only [dedupVals]
    by_cases hc : pyStrip s ∈ seen
    · rw [if_pos hc]
      exact ih seen
    · rw [if_neg hc]
      rw [List.pairwise_cons]
      refine ⟨?_, ih (pyStrip s :: seen)⟩
      intro b hb he
      have hnb := dedupVals_short_notin rest (pyStrip s :: seen) b hb
      apply hnb
      rw [← he]
      exact List.mem_cons_self _ _

theorem dedupByShort_first :
    ∀ (l : List (String × String)) (seen : List String), ∀ v ∈ dedupByShort l seen,
      ∃ p, l.find? (fun q => pyStrip q.1 == v.short_form) = some p ∧
        v.short_form = pyStrip p.1 ∧ v.full_form = pyStrip p.2 := by
  intro l
  induction l with
  | nil => intro seen v hv; simp [dedupByShort] at hv
  | cons p rest ih =>
    obtain ⟨s, f⟩ := p
    intro seen v hv
    simp only [dedupByShort] at hv
    by_cases hc : pyStrip s ∈ seen
    · rw [if_pos hc] at hv
      obtain ⟨q, hq, h1, h2⟩ := ih seen v hv
      have hvn := dedupByShort_short_notin rest seen v hv
      have hne : ¬ ((fun q => pyStrip q.1 == v.short_form) (s, f) = true) := by
        show ¬ ((pyStrip s == v.short_form) = true)
        simp only [beq_iff_eq]
        intro heq
        exact hvn (heq ▸ hc)
      exact ⟨q, (List.find?_cons_of_neg rest hne).trans hq, h1, h2⟩
    · rw [if_neg hc] at hv
      rcases List.mem_cons.mp hv with rfl | hmem
      · refine ⟨(s, f), ?_, rfl, rfl⟩
        exact List.find?_cons_of_pos _ (by simp)
      · obtain ⟨q, hq, h1, h2⟩ := ih (pyStrip s :: seen) v hmem
        have hvn := dedupByShort_short_notin rest (pyStrip s :: seen) v hmem
        have hne : ¬ ((fun q => pyStrip q.1 == v.short_form) (s, f) = true) := by
          show ¬ ((pyStrip s == v.short_form) = true)
          simp only [beq_iff_eq]
          intro heq
          apply hvn
          rw [← heq]
          exact List.mem_cons_self _ _
        exact ⟨q, (List.find?_cons_of_neg rest hne).trans hq, h1, h2⟩

theorem extractAttrs_allowed_pairwise (rows : List Row) (columns : List String) :
    ∀ (cols processed : List String), ∀ a ∈ extractAttrs rows columns cols processed,
      a.allowed_values.Pairwise (fun u v => u.short_form ≠ v.short_form) := by
  intro cols
  induction cols with
  | nil => intro processed a ha; simp [extractAttrs] at ha
  | cons col rest ih =>
    intro processed a ha
    simp only [extractAttrs] at ha
    by_cases hc : (normalize_key col).getD "" = "" ∨ (normalize_key col).getD "" ∈ processed
    · rw [if_pos hc] at ha
      exact ih processed a ha
    · rw [if_neg hc] at ha
      rcases List.mem_cons.mp ha with rfl | hmem
      · simp only [mkAttr]
        by_cases hfn : (col ++ " FULL NAME") ∈ columns
        · rw [if_pos hfn]
          exact dedupByShort_pairwise _ []
        · rw [if_neg hfn]
          exact dedupVals_pairwise _ []
      · exact ih ((normalize_key col).getD "" :: processed) a hmem

/-- C4: within every attribute of a run's catalog the `short_form` fields of
`allowed_values` are pairwise distinct; and the companion-column
deduplication keeps exactly the first projected pair with a given stripped
short form, even when the same short form recurs with a different full
form. -/
theorem C4_short_forms_distinct :
    (∀ (rows : List Row) (columns attr_cols : List String),
       ∀ a ∈ attributes_output rows columns attr_cols,
         a.allowed_values.Pairwise (fun u v => u.short_form ≠ v.short_form)) ∧
    (∀ (l : List (String × String)), ∀ v ∈ dedupByShort l [],
       ∃ p, l.find? (fun q => pyStrip q.1 == v.short_form) = some p ∧
         v.short_form = pyStrip p.1 ∧ v.full_form = pyStrip p.2) :=
  ⟨fun rows columns attr_cols => extractAttrs_allowed_pairwise rows columns attr_cols [],
   fun l => dedupByShort_first l []⟩

/-- Witness for `C4_short_forms_distinct`: the pair list
`[("A", "X"), ("A", "Y")]` keeps only the first pair for short form `"A"`. -/
theorem C4_witness :
    ∃ p, [("A", "X"), ("A", "Y")].find?
        (fun q => pyStrip q.1 ==
          (AttributeValue.mk "A" "X" (generate_aliases (some "A") (some "X"))).short_form)
        = some p ∧
      (AttributeValue.mk "A" "X" (generate_aliases (some "A") (some "X"))).short_form
        = pyStrip p.1 ∧
      (AttributeValue.mk "A" "X" (generate_aliases (some "A") (some "X"))).full_form
        = pyStrip p.2 :=
  C4_short_forms_distinct.2 [("A", "X"), ("A", "Y")]
    ⟨"A", "X", generate_aliases (some "A") (some "X")⟩ (by decide)

/-! ### Claim C6 -/

/-- A one-row table refuting the exact-column form of the mapping claim:
the row's category is `"C"`, the column `"A-B"` holds a value, and the
column `"A B"` — which normalizes to the same key `"A_B"` — is missing. -/
def ceRow : Row := fun c =>
  if c = "MAJOR CATEGORY" then some "C"
  else if c = "A-B" then some "v" else none

/-- C6, counterexample: with attribute columns `["A B", "A-B"]` the output
contains the edge `{major_category := "C", attribute := "A_B"}` although no
row with category `"C"` has a non-missing value in column `"A B"` (whose
normalized key is the non-empty `"A_B"`): the edge is contributed by the
differently spelled column `"A-B"`, which normalizes to the same key, so
the claimed "if and only if" fails in the only-if direction. -/
theorem C6_counterexample :
    CategoryMapping.mk "C" "A_B" ∈ category_mappings [ceRow] ["A B", "A-B"] ∧
    normalize_key "A B" = some "A_B" ∧
    ¬ ∃ r ∈ [ceRow], r MAJOR_CATEGORY = some "C" ∧ (r "A B").isSome = true := by
  decide

/-- C6, amended: the output contains the edge `{m, k}` (with `k` non-empty)
if and only if some category value `cv` stripping to `m` appears in the
table and some attribute column `col` normalizing to `k` has a non-missing
value in at least one row whose category equals `cv` — the witnessing
column need not be the particular column one asks about, and the category
value is only determined up to stripping. -/
theorem C6_mapping_iff (rows : List Row) (attr_cols : List String) (m k : String) :
    CategoryMapping.mk m k ∈ category_mappings rows attr_cols ↔
    ∃ cv col, col ∈ attr_cols ∧ normalize_key col = some k ∧ k ≠ "" ∧ pyStrip cv = m ∧
      ∃ r ∈ rows, r MAJOR_CATEGORY = some cv ∧ (r col).isSome = true := by
  simp only [category_mappings]
  rw [List.mem_flatMap]
  constructor
  · rintro ⟨cv, -, hmc⟩
    rw [List.mem_filterMap] at hmc
    obtain ⟨col, hcol, hsome⟩ := hmc
    by_cases hany : ((rows.filter (fun r => r MAJOR_CATEGORY == some cv)).any
        (fun r => (r col).isSome)) = true
    · rw [if_pos hany] at hsome
      cases hnk : normalize_key col with
      | none =>
        rw [hnk] at hsome
        simp at hsome
      | some k0 =>
        rw [hnk] at hsome
        simp only [Option.getD_some] at hsome
        by_cases hk0 : k0 = ""
        · rw [if_pos hk0] at hsome
          simp at hsome
        · rw [if_neg hk0] at hsome
          injection hsome with hsome2
          injection hsome2 with h1 h2
          subst h2
          rw [List.any_eq_true] at hany
          obtain ⟨r, hrf, hrs⟩ := hany
          rw [List.mem_filter] at hrf
          obtain ⟨hr, hcat⟩ := hrf
          have hcat2 : r MAJOR_CATEGORY = some cv := by simpa using hcat
          exact ⟨cv, col, hcol, hnk, hk0, h1, r, hr, hcat2, hrs⟩
    · rw [if_neg hany] at hsome
      simp at hsome
  · rintro ⟨cv, col, hcol, hnk, hke, hm, r, hr, hcat, hval⟩
    refine ⟨cv, ?_, ?_⟩
    · rw [List.mem_filterMap]
      refine ⟨some cv, ?_, rfl⟩
      rw [mem_uniqueFirst]
      exact List.mem_map.mpr ⟨r, hr, hcat⟩
    · simp only [List.mem_filterMap]
      refine ⟨col, hcol, ?_⟩
      have hany : ((rows.filter (fun r => r MAJOR_CATEGORY == some cv)).any
          (fun r => (r col).isSome)) = true := by
        rw [List.any_eq_true]
        refine ⟨r, List.mem_filter.mpr ⟨hr, ?_⟩, hval⟩
        simp [hcat]
      rw [if_pos hany, hnk]
      simp only [Option.getD_some]
      rw [if_neg hke, hm]

/-- Witness for `C6_mapping_iff`: instantiating the iff on a concrete
one-row table produces the expected edge. -/
theorem C6_witness :
    CategoryMapping.mk "KNIT" "NECK_TYPE" ∈ category_mappings [wRow] ["NECK TYPE"] :=
  (C6_mapping_iff [wRow] ["NECK TYPE"] "KNIT" "NECK_TYPE").mpr
    ⟨"KNIT", "NECK TYPE", by decide, by decide, by decide, by decide,
     wRow, List.mem_cons_self _ _, by decide, by decide⟩

end ParseExcel
